import Mathlib

/-!
Shallow embedding of the pool engine of `AuroraDSL_python`.

The main model follows `DSQLCustomConnectionPool` in
`src/connectionpooling_original.py`: a FIFO idle queue bounded by
`maxconn` (`queue.Queue(maxsize=maxconn)`), an integer counter
`_current_connections`, and the operations `_init_pool`,
`_create_connection`, `get_connection`, `put_connection`,
`get_db_connection` and `close_all`.  A second, smaller model follows
`DSQLPoolManager._init_pool` in `src/psycopg2_connectionpooling.py`.

External collaborators (the token service and the transport) are
modelled as oracles: `mintOk t` says whether the `t`-th token mint
succeeds, `connectOk c` whether the handshake for the `c`-th physical
connection attempt succeeds, `connClosed c` whether the transport
reports connection `c` closed, and `probeOk c` whether the liveness
probe (`SELECT 1`) on connection `c` succeeds.

Ghost fields (`nextConnId`, `nextTokenId`, `createdTotal`, `attempts`,
`closedConns`) record the trace of mints, physical connection attempts
and closes; they mirror the calls the Python code makes but store no
information the code's execution would not determine.
-/

/-- Oracles for the external token service and transport. -/
structure Env where
  mintOk : Nat → Bool
  connectOk : Nat → Bool
  connClosed : Nat → Bool
  probeOk : Nat → Bool

/-- `DSQLConnectionWrapper`: a psycopg2 connection (identified by `id`)
plus its `created_at` stamp. -/
structure Conn where
  id : Nat
  createdAt : Nat
deriving DecidableEq

/-- State of `DSQLCustomConnectionPool`.  `pool` is the FIFO idle queue
(head = front), `current` is `_current_connections` (a Python int, so
modelled as `Int`).  The remaining fields are ghost trace fields:
`attempts` lists, in order, the token id used by each physical
connection attempt (each `psycopg2.connect` call), `createdTotal`
counts successful creations, `closedConns` lists ids of connections
that were closed. -/
structure PoolState where
  pool : List Conn
  current : Int
  nextConnId : Nat
  nextTokenId : Nat
  createdTotal : Nat
  attempts : List Nat
  closedConns : List Nat
deriving DecidableEq

/-- The fresh pool state before `_init_pool` runs. -/
def initState : PoolState :=
  { pool := [], current := 0, nextConnId := 0, nextTokenId := 0,
    createdTotal := 0, attempts := [], closedConns := [] }

/-- Events emitted by `get_connection`, used to talk about what happens
inside the `with self._pool_lock:` critical section.  `probe`, `mint`
and `connect` are the network I/O events. -/
inductive Ev where
  | lockAcq
  | lockRel
  | probe (id : Nat)
  | mint
  | connect
deriving DecidableEq

/-- `DSQLConnectionWrapper.is_healthy`: returns `False` when the
transport reports the connection closed, otherwise the result of the
`SELECT 1` liveness probe (any probe exception yields `False`).
The `created_at` stamp is not consulted. -/
def is_healthy (env : Env) (c : Conn) : Bool :=
  if env.connClosed c.id then false
  else env.probeOk c.id

/-- Errors raised by `_create_connection`: the token mint raising
(`get_auth_token`), or `psycopg2.connect` raising. -/
inductive CreateError where
  | authError
  | connectError
deriving DecidableEq

/-- `DSQLCustomConnectionPool._create_connection`: mint a fresh token
(`get_auth_token(cluster_id, 5)`), then open a connection with it, then
wrap it with `created_at = now`.  Returns the result, the state with
the ghost trace advanced, and the I/O events performed. -/
def create_connection (env : Env) (now : Nat) (s : PoolState) :
    Except CreateError Conn × PoolState × List Ev :=
  let t := s.nextTokenId
  let s1 := { s with nextTokenId := t + 1 }
  if env.mintOk t then
    let cid := s1.nextConnId
    let s2 := { s1 with nextConnId := cid + 1, attempts := s1.attempts ++ [t] }
    if env.connectOk cid then
      (.ok { id := cid, createdAt := now },
       { s2 with createdTotal := s2.createdTotal + 1 }, [.mint, .connect])
    else
      (.error .connectError, s2, [.mint, .connect])
  else
    (.error .authError, s1, [.mint])

/-- Errors surfaced by `get_connection`: the explicit
`raise Exception("コネクションプール上限に達しました")` (pool
exhausted), or a `_create_connection` failure propagating. -/
inductive GetError where
  | exhausted
  | createFailed (e : CreateError)
deriving DecidableEq

deriving instance DecidableEq for Except

/-- `DSQLCustomConnectionPool.get_connection`.  The whole body runs
under `with self._pool_lock:`.  Pop from the queue (non-blocking): if
healthy return it; if unhealthy close it and return a freshly created
replacement (no second health check, no counter change).  If the queue
is empty: create a new connection and increment `_current_connections`
when under `maxconn`, otherwise raise.  Every branch returns or raises
on its first iteration, so the `while True` loop runs once.  Returns
the result, the post state (mutations before an exception persist, as
in Python), and the event trace including lock acquisition/release. -/
def get_connection (env : Env) (maxconn : Nat) (now : Nat) (s : PoolState) :
    Except GetError Conn × PoolState × List Ev :=
  match s.pool with
  | c :: rest =>
    if is_healthy env c then
      (.ok c, { s with pool := rest }, [.lockAcq, .probe c.id, .lockRel])
    else
      let s1 := { s with pool := rest, closedConns := s.closedConns ++ [c.id] }
      match create_connection env now s1 with
      | (.ok c2, s2, evs) =>
        (.ok c2, s2, .lockAcq :: .probe c.id :: (evs ++ [.lockRel]))
      | (.error e, s2, evs) =>
        (.error (.createFailed e), s2, .lockAcq :: .probe c.id :: (evs ++ [.lockRel]))
  | [] =>
    if s.current < (maxconn : Int) then
      match create_connection env now s with
      | (.ok c2, s2, evs) =>
        (.ok c2, { s2 with current := s2.current + 1 }, .lockAcq :: (evs ++ [.lockRel]))
      | (.error e, s2, evs) =>
        (.error (.createFailed e), s2, .lockAcq :: (evs ++ [.lockRel]))
    else
      (.error .exhausted, s, [.lockAcq, .lockRel])

/-- `DSQLCustomConnectionPool.put_connection`: `queue.put(block=False)`
appends to the back when the queue has room; on `queue.Full` the
connection is closed and `_current_connections` decremented.  Python's
`queue.Queue` treats `maxsize <= 0` as unbounded, so with `maxconn = 0`
the put always succeeds and `queue.Full` is only possible when
`0 < maxconn` and the queue already holds `maxconn` items. -/
def put_connection (maxconn : Nat) (c : Conn) (s : PoolState) : PoolState :=
  if maxconn = 0 ∨ s.pool.length < maxconn then
    { s with pool := s.pool ++ [c] }
  else
    { s with current := s.current - 1, closedConns := s.closedConns ++ [c.id] }

/-- `DSQLCustomConnectionPool.close_all`: drain the queue closing each
connection, then set `_current_connections` to 0. -/
def close_all (s : PoolState) : PoolState :=
  { s with pool := [],
           closedConns := s.closedConns ++ s.pool.map Conn.id,
           current := 0 }

/-- One iteration of the `_init_pool` loop: `_create_connection`, then
`self._pool.put(conn, block=False)` and the counter increment; any
exception (create failure, or `queue.Full` when `0 < maxconn` and the
queue already holds `maxconn` items — a `maxsize <= 0` queue is
unbounded and never full) is caught, logged and swallowed. -/
def init_step (env : Env) (maxconn : Nat) (now : Nat) (s : PoolState) : PoolState :=
  match create_connection env now s with
  | (.ok c, s1, _) =>
    if maxconn = 0 ∨ s1.pool.length < maxconn then
      { s1 with pool := s1.pool ++ [c], current := s1.current + 1 }
    else
      s1
  | (.error _, s1, _) => s1

/-- `DSQLCustomConnectionPool._init_pool`: run the pre-warm loop
`for i in range(minconn)` from the fresh state. -/
def init_pool (env : Env) (maxconn now : Nat) : Nat → PoolState
  | 0 => initState
  | n + 1 => init_step env maxconn now (init_pool env maxconn now n)

/-- Result of a `get_db_connection` checkout: the acquire raised, or
the caller-supplied work raised (the `yield` body). -/
inductive UseError where
  | acquireFailed (e : GetError)
  | workFailed
deriving DecidableEq

/-- `DSQLCustomConnectionPool.get_db_connection` context manager: call
`get_connection`; if it raises, re-raise (the `finally` block does
nothing since `conn_wrapper is None`).  Otherwise yield the connection
to the caller's work; whether the work returns or raises, the
`finally` block calls `put_connection` on the wrapper.  `workFails`
says whether the caller's work raises. -/
def get_db_connection (env : Env) (maxconn now : Nat) (workFails : Bool)
    (s : PoolState) : Except UseError Conn × PoolState :=
  match get_connection env maxconn now s with
  | (.ok c, s1, _) =>
    let s2 := put_connection maxconn c s1
    if workFails then (.error .workFailed, s2) else (.ok c, s2)
  | (.error e, s1, _) => (.error (.acquireFailed e), s1)

/-- Client operations against the pool, for reachability: acquire at
time `now`, release the `idx`-th currently held connection, shut down.
-/
inductive Op where
  | get (now : Nat)
  | put (idx : Nat)
  | closeAll
deriving DecidableEq

/-- A pool state together with the connections currently checked out
(held) by callers. -/
structure World where
  ps : PoolState
  held : List Conn
deriving DecidableEq

/-- One client operation: `get` checks a connection out on success,
`put` releases a held connection via `put_connection`, `closeAll`
runs `close_all` (callers keep what they hold). -/
def step (env : Env) (maxconn : Nat) (w : World) : Op → World
  | .get now =>
    match get_connection env maxconn now w.ps with
    | (.ok c, s1, _) => { ps := s1, held := w.held ++ [c] }
    | (.error _, s1, _) => { ps := s1, held := w.held }
  | .put idx =>
    match w.held[idx]? with
    | some c => { ps := put_connection maxconn c w.ps, held := w.held.eraseIdx idx }
    | none => w
  | .closeAll => { ps := close_all w.ps, held := w.held }

/-- Run a sequence of client operations from a freshly constructed
pool (constructor pre-warm of `minconn` connections at time 0). -/
def run (env : Env) (maxconn minconn : Nat) (ops : List Op) : World :=
  ops.foldl (step env maxconn) { ps := init_pool env maxconn 0 minconn, held := [] }

/-- An environment in which every mint and every handshake succeeds
and every connection probes healthy. -/
def envAllOk : Env :=
  { mintOk := fun _ => true, connectOk := fun _ => true,
    connClosed := fun _ => false, probeOk := fun _ => true }

/-! ### Model of `DSQLPoolManager` (`src/psycopg2_connectionpooling.py`)

`DSQLPoolManager._init_pool` mints a single token
(`get_auth_token(self.cluster_id, 120)` — outside the `try` block) and
passes it as the fixed `password` of
`psycopg2.pool.ThreadedConnectionPool(minconn, maxconn, ...)`, which
eagerly opens `minconn` physical connections at construction, each
authenticating with that same saved password.  A mint failure, or any
connect failure inside the `try` (whose handler is a bare `raise`),
propagates out of the constructor. -/

/-- Result of `DSQLPoolManager._init_pool`: the ids of the connections
the threaded pool opened, and, per physical open, the id of the token
it authenticated with. -/
structure ManagerPool where
  conns : List Nat
  tokenUsed : List Nat
deriving DecidableEq

/-- `DSQLPoolManager._init_pool`, with `mintOk` the outcome of the one
token mint and `connectOk i` the outcome of the `i`-th eager open. -/
def psycopg2_init (mintOk : Bool) (connectOk : Nat → Bool) (minconn : Nat) :
    Except CreateError ManagerPool :=
  if mintOk then
    if (List.range minconn).all connectOk then
      .ok { conns := List.range minconn, tokenUsed := List.replicate minconn 0 }
    else
      .error .connectError
  else
    .error .authError

/-- The token ids the manager pool's pre-warm opens used (empty when
construction failed). -/
def managerTokens : Except CreateError ManagerPool → List Nat
  | .ok m => m.tokenUsed
  | .error _ => []

/-! ### Lock-discipline predicates over event traces -/

/-- Whether `ev` is a network I/O event (probe, token mint, handshake).
-/
def Ev.isIO : Ev → Bool
  | .probe _ => true
  | .mint => true
  | .connect => true
  | _ => false

/-- `lockCheck held require evs`: scanning `evs` with the lock
currently `held`, every I/O event happens while the lock-held flag
equals `require`. -/
def lockCheck (require : Bool) : Bool → List Ev → Bool
  | _, [] => true
  | _, .lockAcq :: rest => lockCheck require true rest
  | _, .lockRel :: rest => lockCheck require false rest
  | held, _ :: rest => (held == require) && lockCheck require held rest

/-- Every I/O event of the trace occurs outside the critical section
(what the spec demands of acquire). -/
def ioOutsideLock (evs : List Ev) : Bool := lockCheck false false evs

/-- Every I/O event of the trace occurs inside the critical section. -/
def ioInsideLock (evs : List Ev) : Bool := lockCheck true false evs

/-- An environment in which every token mint fails (the identity
service always raises). -/
def envNoMint : Env :=
  { mintOk := fun _ => false, connectOk := fun _ => true,
    connClosed := fun _ => false, probeOk := fun _ => true }

/-- An environment in which connection 0 is reported closed by the
transport (externally severed) while mints, handshakes and all other
probes succeed. -/
def envSickHead : Env :=
  { mintOk := fun _ => true, connectOk := fun _ => true,
    connClosed := fun i => i == 0, probeOk := fun _ => true }

/-- A pool state holding one idle connection (id 0, created at time 0)
with `_current_connections = 1` and the matching ghost trace. -/
def oneIdleState : PoolState :=
  { pool := [{ id := 0, createdAt := 0 }], current := 1, nextConnId := 1,
    nextTokenId := 1, createdTotal := 1, attempts := [0], closedConns := [] }

/-- A pool state at capacity `maxconn = 1`: no idle connection, one
outstanding, counter 1. -/
def atCapacityState : PoolState :=
  { pool := [], current := 1, nextConnId := 1, nextTokenId := 1,
    createdTotal := 1, attempts := [0], closedConns := [] }

/-- Counting invariant tying the world to the configuration: the idle
store size plus the number of checked-out connections is bounded by
`_current_connections`, which is bounded by `maxconn`. -/
def PoolBoundInv (maxconn : Nat) (w : World) : Prop :=
  (w.ps.pool.length + w.held.length : Int) ≤ w.ps.current ∧
  w.ps.current ≤ (maxconn : Int)

/-- Token-freshness invariant of the ghost trace: the token ids used
by the physical connection attempts are strictly increasing, and all
lie below the next token id to be minted. -/
def TokensFresh (s : PoolState) : Prop :=
  s.attempts.Pairwise (· < ·) ∧ ∀ t ∈ s.attempts, t < s.nextTokenId

/-! ### Helper lemmas -/

/-- `_create_connection` never touches the queue, the counter or the
set of closed connections. -/
theorem create_connection_frame (env : Env) (now : Nat) (s : PoolState) :
    (create_connection env now s).2.1.pool = s.pool ∧
    (create_connection env now s).2.1.current = s.current ∧
    (create_connection env now s).2.1.closedConns = s.closedConns := by
  unfold create_connection
  by_cases h1 : env.mintOk s.nextTokenId <;> simp [h1]
  by_cases h2 : env.connectOk s.nextConnId <;> simp [h2]

/-- After the constructor pre-warm of a bounded queue (`0 < maxconn`;
Python treats `maxsize <= 0` as unbounded), the counter equals the
idle-store size and that size is bounded by `maxconn`. -/
theorem init_pool_counts (env : Env) (maxconn now : Nat) (hpos : 0 < maxconn) : ∀ n,
    (init_pool env maxconn now n).current =
      ((init_pool env maxconn now n).pool.length : Int) ∧
    (init_pool env maxconn now n).pool.length ≤ maxconn := by
  intro n
  induction n with
  | zero => simp [init_pool, initState]
  | succ n ih =>
    obtain ⟨ih1, ih2⟩ := ih
    have hstep : init_pool env maxconn now (n + 1) =
        init_step env maxconn now (init_pool env maxconn now n) := rfl
    rw [hstep]
    set s := init_pool env maxconn now n with hs
    obtain ⟨hf1, hf2, _⟩ := create_connection_frame env now s
    unfold init_step
    rcases hc : create_connection env now s with ⟨r, s1, evs⟩
    rw [hc] at hf1 hf2
    dsimp only at hf1 hf2
    cases r with
    | ok c =>
      dsimp only
      by_cases hlen : s1.pool.length < maxconn
      · rw [if_pos (Or.inr hlen)]
        rw [hf1] at hlen
        constructor
        · dsimp only
          rw [hf1, hf2, ih1]
          simp
        · dsimp only
          rw [hf1]
          simp
          omega
      · rw [if_neg (not_or.mpr ⟨by omega, hlen⟩)]
        exact ⟨by rw [hf1, hf2, ih1], by rw [hf1]; exact ih2⟩
    | error e =>
      dsimp only
      exact ⟨by rw [hf1, hf2, ih1], by rw [hf1]; exact ih2⟩


/-- Branch equation: popping a healthy connection returns it with no
other state change. -/
theorem get_connection_healthy (env : Env) (maxconn now : Nat) (s : PoolState)
    (c : Conn) (rest : List Conn) (hp : s.pool = c :: rest)
    (hh : is_healthy env c = true) :
    get_connection env maxconn now s =
      (.ok c, { s with pool := rest }, [.lockAcq, .probe c.id, .lockRel]) := by
  unfold get_connection
  rw [hp]
  simp [hh]

/-- Branch equation: popping an unhealthy connection closes it and
returns the outcome of one `_create_connection` call, with no counter
change. -/
theorem get_connection_unhealthy (env : Env) (maxconn now : Nat) (s : PoolState)
    (c : Conn) (rest : List Conn) (hp : s.pool = c :: rest)
    (hh : is_healthy env c = false) :
    get_connection env maxconn now s =
      (match create_connection env now
          { s with pool := rest, closedConns := s.closedConns ++ [c.id] } with
       | (.ok c2, s2, evs) =>
         (.ok c2, s2, .lockAcq :: .probe c.id :: (evs ++ [.lockRel]))
       | (.error e, s2, evs) =>
         (.error (.createFailed e), s2, .lockAcq :: .probe c.id :: (evs ++ [.lockRel]))) := by
  unfold get_connection
  rw [hp]
  simp [hh]

/-- Branch equation: with an empty queue and the counter under
`maxconn`, `get_connection` creates and increments the counter on
success. -/
theorem get_connection_empty_grow (env : Env) (maxconn now : Nat) (s : PoolState)
    (hp : s.pool = []) (hlt : s.current < (maxconn : Int)) :
    get_connection env maxconn now s =
      (match create_connection env now s with
       | (.ok c2, s2, evs) =>
         (.ok c2, { s2 with current := s2.current + 1 }, .lockAcq :: (evs ++ [.lockRel]))
       | (.error e, s2, evs) =>
         (.error (.createFailed e), s2, .lockAcq :: (evs ++ [.lockRel]))) := by
  unfold get_connection
  rw [hp]
  simp [hlt]

/-- Branch equation: with an empty queue and the counter at (or above)
`maxconn`, `get_connection` raises and changes nothing. -/
theorem get_connection_exhausted_eq (env : Env) (maxconn now : Nat) (s : PoolState)
    (hp : s.pool = []) (hge : ¬ s.current < (maxconn : Int)) :
    get_connection env maxconn now s = (.error .exhausted, s, [.lockAcq, .lockRel]) := by
  unfold get_connection
  rw [hp]
  simp [hge]

/-- A `get` operation preserves the counting invariant. -/
theorem step_get_bound (env : Env) (maxconn now : Nat) (w : World)
    (h : PoolBoundInv maxconn w) :
    PoolBoundInv maxconn (step env maxconn w (.get now)) := by
  obtain ⟨h1, h2⟩ := h
  have hstep : step env maxconn w (.get now) =
      (match get_connection env maxconn now w.ps with
       | (.ok c, s1, _) => { ps := s1, held := w.held ++ [c] }
       | (.error _, s1, _) => { ps := s1, held := w.held }) := rfl
  rw [hstep]
  cases hp : w.ps.pool with
  | cons c rest =>
    rw [hp] at h1
    simp only [List.length_cons] at h1
    by_cases hh : is_healthy env c
    · rw [get_connection_healthy env maxconn now w.ps c rest hp hh]
      refine ⟨?_, h2⟩
      simp only [List.length_append, List.length_cons, List.length_nil]
      push_cast at h1 ⊢
      omega
    · rw [get_connection_unhealthy env maxconn now w.ps c rest hp
            (Bool.not_eq_true _ ▸ hh)]
      obtain ⟨hf1, hf2, _⟩ := create_connection_frame env now
        { w.ps with pool := rest, closedConns := w.ps.closedConns ++ [c.id] }
      rcases hc : create_connection env now
          { w.ps with pool := rest, closedConns := w.ps.closedConns ++ [c.id] }
        with ⟨r, s2, evs⟩
      obtain ⟨s2p, s2c, s2ni, s2nt, s2ct, s2at, s2cl⟩ := s2
      rw [hc] at hf1 hf2
      simp only at hf1 hf2
      subst hf1
      subst hf2
      cases r with
      | ok c2 =>
        refine ⟨?_, h2⟩
        simp only [List.length_append, List.length_cons, List.length_nil]
        push_cast at h1 ⊢
        omega
      | error e =>
        refine ⟨?_, h2⟩
        push_cast at h1 ⊢
        omega
  | nil =>
    rw [hp] at h1
    simp only [List.length_nil] at h1
    by_cases hlt : w.ps.current < (maxconn : Int)
    · rw [get_connection_empty_grow env maxconn now w.ps hp hlt]
      obtain ⟨hf1, hf2, _⟩ := create_connection_frame env now w.ps
      rcases hc : create_connection env now w.ps with ⟨r, s2, evs⟩
      obtain ⟨s2p, s2c, s2ni, s2nt, s2ct, s2at, s2cl⟩ := s2
      rw [hc] at hf1 hf2
      simp only at hf1 hf2
      subst hf1
      subst hf2
      cases r with
      | ok c2 =>
        refine ⟨?_, by dsimp only; omega⟩
        simp only [hp, List.length_append, List.length_cons, List.length_nil]
        push_cast at h1 ⊢
        omega
      | error e =>
        refine ⟨?_, h2⟩
        simp only [hp, List.length_nil]
        push_cast at h1 ⊢
        omega
    · rw [get_connection_exhausted_eq env maxconn now w.ps hp hlt]
      refine ⟨?_, h2⟩
      simp only [hp, List.length_nil]
      push_cast at h1 ⊢
      omega

/-- A `put` (release) operation preserves the counting invariant. -/
theorem step_put_bound (env : Env) (maxconn idx : Nat) (w : World)
    (h : PoolBoundInv maxconn w) :
    PoolBoundInv maxconn (step env maxconn w (.put idx)) := by
  obtain ⟨h1, h2⟩ := h
  have hstep : step env maxconn w (.put idx) =
      (match w.held[idx]? with
       | some c => { ps := put_connection maxconn c w.ps, held := w.held.eraseIdx idx }
       | none => w) := rfl
  rw [hstep]
  cases hidx : w.held[idx]? with
  | none => exact ⟨h1, h2⟩
  | some c =>
    show PoolBoundInv maxconn
      { ps := put_connection maxconn c w.ps, held := w.held.eraseIdx idx }
    have hlt : idx < w.held.length := (List.getElem?_eq_some.mp hidx).1
    have herase : (w.held.eraseIdx idx).length = w.held.length - 1 := by
      have := List.length_eraseIdx_add_one hlt
      omega
    unfold put_connection
    by_cases hroom : maxconn = 0 ∨ w.ps.pool.length < maxconn
    · rw [if_pos hroom]
      refine ⟨?_, h2⟩
      simp only [List.length_append, List.length_cons, List.length_nil, herase]
      omega
    · rw [if_neg hroom]
      constructor
      · simp only [herase]
        omega
      · dsimp only
        omega

/-- A `closeAll`-free operation preserves the counting invariant. -/
theorem step_bound (env : Env) (maxconn : Nat) (w : World) (op : Op)
    (hop : op ≠ .closeAll) (h : PoolBoundInv maxconn w) :
    PoolBoundInv maxconn (step env maxconn w op) := by
  cases op with
  | get now => exact step_get_bound env maxconn now w h
  | put idx => exact step_put_bound env maxconn idx w h
  | closeAll => exact absurd rfl hop

/-- The counting invariant holds along any `closeAll`-free run. -/
theorem foldl_bound (env : Env) (maxconn : Nat) : ∀ (ops : List Op) (w : World),
    PoolBoundInv maxconn w → (∀ op ∈ ops, op ≠ .closeAll) →
    PoolBoundInv maxconn (ops.foldl (step env maxconn) w) := by
  intro ops
  induction ops with
  | nil => intro w h _; exact h
  | cons op rest ih =>
    intro w h hops
    simp only [List.foldl_cons]
    exact ih (step env maxconn w op)
      (step_bound env maxconn w op (hops op (List.mem_cons_self op rest)) h)
      (fun o ho => hops o (List.mem_cons_of_mem op ho))

/-- The freshly constructed pool of a bounded queue satisfies the
counting invariant. -/
theorem init_bound (env : Env) (maxconn minconn : Nat) (hpos : 0 < maxconn) :
    PoolBoundInv maxconn { ps := init_pool env maxconn 0 minconn, held := [] } := by
  obtain ⟨h1, h2⟩ := init_pool_counts env maxconn 0 hpos minconn
  constructor
  · simp [h1]
  · rw [h1]
    exact_mod_cast h2

/-! ### Claims -/

/-- C1 (counterexample): the claimed invariant
`idleCount + outstandingCount <= maxConnections` over sequences that
include `close_all` is false.  With `maxconn = 1`: acquire one
connection, call `close_all` while it is checked out (this resets
`_current_connections` to 0), then acquire again — the second acquire
creates a fresh connection, leaving two live checked-out connections
against a ceiling of one. -/
theorem pool_bound_violated_after_close_all :
    ¬ ((run envAllOk 1 0 [.get 0, .closeAll, .get 0]).ps.pool.length +
       (run envAllOk 1 0 [.get 0, .closeAll, .get 0]).held.length ≤ 1) := by
  decide

/-- C1 (amended): for every positive `maxconn` (Python's `queue.Queue`
treats `maxsize <= 0` as unbounded, so a ceiling exists only when
`maxconn >= 1`) and every state reachable from a fresh pool by
constructor pre-warm, `get_connection` and `put_connection` calls
without `close_all`, the number of idle connections plus the number of
checked-out connections is at most `maxconn`. -/
theorem pool_bound_without_close_all (env : Env) (maxconn minconn : Nat)
    (ops : List Op) (hpos : 0 < maxconn) (hops : ∀ op ∈ ops, op ≠ .closeAll) :
    (run env maxconn minconn ops).ps.pool.length +
      (run env maxconn minconn ops).held.length ≤ maxconn := by
  obtain ⟨h1, h2⟩ := foldl_bound env maxconn ops
    { ps := init_pool env maxconn 0 minconn, held := [] }
    (init_bound env maxconn minconn hpos) hops
  unfold run
  omega

/-- C1 witness: a concrete `close_all`-free run (pre-warm one
connection, acquire, release, acquire) respects the bound `maxconn = 2`.
-/
theorem pool_bound_without_close_all_witness :
    (run envAllOk 2 1 [.get 0, .put 0, .get 1]).ps.pool.length +
      (run envAllOk 2 1 [.get 0, .put 0, .get 1]).held.length ≤ 2 :=
  pool_bound_without_close_all envAllOk 2 1 [.get 0, .put 0, .get 1]
    (by decide) (by decide)

/-- C2 (counterexample): there is no `closed` flag.  After `close_all`
on a pool holding one idle connection, the next `get_connection`
(with `maxconn = 1`) does not fail with any `PoolClosed` error: it
mints a token, creates a brand-new physical connection, returns it,
and the total number of creations increases. -/
theorem acquire_after_close_all_succeeds_cex :
    (get_connection envAllOk 1 5 (close_all oneIdleState)).1 =
      .ok { id := 1, createdAt := 5 } ∧
    (get_connection envAllOk 1 5 (close_all oneIdleState)).2.1.createdTotal =
      oneIdleState.createdTotal + 1 := by
  decide

/-- C2 (amended): `close_all` only drains the idle store and resets
`_current_connections` to 0; the pool has no closed state.  For any
pool state, a subsequent `get_connection` (with `maxconn > 0`, a
successful mint and handshake) returns a freshly created connection
and increments the creation count — it does not fail fast. -/
theorem acquire_after_close_all_creates (env : Env) (maxconn now : Nat)
    (s : PoolState) (hmax : 0 < maxconn)
    (hm : env.mintOk s.nextTokenId = true)
    (hc : env.connectOk s.nextConnId = true) :
    (get_connection env maxconn now (close_all s)).1 =
      .ok { id := s.nextConnId, createdAt := now } ∧
    (get_connection env maxconn now (close_all s)).2.1.createdTotal =
      s.createdTotal + 1 := by
  have hp : (close_all s).pool = [] := rfl
  have hlt : (close_all s).current < (maxconn : Int) := by
    show (0 : Int) < (maxconn : Int)
    exact_mod_cast hmax
  rw [get_connection_empty_grow env maxconn now (close_all s) hp hlt]
  unfold create_connection
  have hm' : env.mintOk (close_all s).nextTokenId = true := hm
  have hc' : env.connectOk (close_all s).nextConnId = true := hc
  simp [hm', hc']
  exact ⟨rfl, rfl⟩

/-- C2 witness: the amended theorem applied to `oneIdleState` with
`maxconn = 1` at time 5. -/
theorem acquire_after_close_all_creates_witness :
    (get_connection envAllOk 1 5 (close_all oneIdleState)).1 =
      .ok { id := 1, createdAt := 5 } ∧
    (get_connection envAllOk 1 5 (close_all oneIdleState)).2.1.createdTotal =
      oneIdleState.createdTotal + 1 :=
  acquire_after_close_all_creates envAllOk 1 5 oneIdleState
    (by decide) (by decide) (by decide)

/-- C3 (counterexample): `is_healthy` performs no age check, so an
arbitrarily old connection is returned by acquire.  The idle
connection of `oneIdleState` was created at time 0; at time 1000000,
with any configured maximum age such as 1 long exceeded, `get_connection`
still returns that very connection. -/
theorem aged_connection_returned_cex :
    (get_connection envAllOk 5 1000000 oneIdleState).1 =
      .ok { id := 0, createdAt := 0 } ∧
    1 < 1000000 - ({ id := 0, createdAt := 0 } : Conn).createdAt := by
  decide

/-- C3 (amended): the health check consists only of the transport
closed check and the liveness probe; `created_at` is stamped but never
consulted and no `maxConnectionAge` option exists.  Whatever bound
`maxAge` one posits, a connection whose age exceeds it is still
returned by `get_connection` whenever the transport does not report it
closed and the probe succeeds. -/
theorem acquire_ignores_age (env : Env) (maxconn now maxAge : Nat)
    (s : PoolState) (c : Conn) (rest : List Conn) (hp : s.pool = c :: rest)
    (hcl : env.connClosed c.id = false) (hpr : env.probeOk c.id = true)
    (_hage : maxAge < now - c.createdAt) :
    (get_connection env maxconn now s).1 = .ok c := by
  have hh : is_healthy env c = true := by
    unfold is_healthy
    simp [hcl, hpr]
  rw [get_connection_healthy env maxconn now s c rest hp hh]

/-- C3 witness: the amended theorem at `oneIdleState`, probing at time
1000000 a connection created at time 0 with posited bound 1. -/
theorem acquire_ignores_age_witness :
    (get_connection envAllOk 5 1000000 oneIdleState).1 =
      .ok { id := 0, createdAt := 0 } :=
  acquire_ignores_age envAllOk 5 1000000 1 oneIdleState
    { id := 0, createdAt := 0 } [] (by decide) (by decide) (by decide) (by decide)

/-- C4 (counterexample): the `get_db_connection` context manager does
not close a connection whose checkout errored.  With `maxconn = 1` and
an empty fresh pool, the work function raises, yet the `finally`
block's `put_connection` pushes the connection back into the idle
store and nothing is closed. -/
theorem errored_connection_repooled_cex :
    (get_db_connection envAllOk 1 0 true initState).1 = .error .workFailed ∧
    (get_db_connection envAllOk 1 0 true initState).2.pool =
      [{ id := 0, createdAt := 0 }] ∧
    (get_db_connection envAllOk 1 0 true initState).2.closedConns = [] := by
  decide

/-- C4 (amended): when the caller-supplied work raises, the release
performed by `get_db_connection` still returns the connection to the
idle store via `put_connection` whenever the store has spare room; the
connection is closed only on `queue.Full`, never because the work
errored. -/
theorem errored_release_repools (env : Env) (maxconn now : Nat) (s : PoolState)
    (c : Conn) (s1 : PoolState) (evs : List Ev)
    (hget : get_connection env maxconn now s = (.ok c, s1, evs))
    (hroom : s1.pool.length < maxconn) :
    get_db_connection env maxconn now true s =
      (.error .workFailed, { s1 with pool := s1.pool ++ [c] }) := by
  unfold get_db_connection
  rw [hget]
  dsimp only
  unfold put_connection
  rw [if_pos (Or.inr hroom)]
  rfl

/-- C4 witness: the amended theorem at the concrete checkout of the
counterexample, with the intermediate acquire state spelled out. -/
theorem errored_release_repools_witness :
    get_db_connection envAllOk 1 0 true initState =
      (.error .workFailed,
       { pool := [{ id := 0, createdAt := 0 }], current := 1, nextConnId := 1,
         nextTokenId := 1, createdTotal := 1, attempts := [0], closedConns := [] }) :=
  errored_release_repools envAllOk 1 0 initState { id := 0, createdAt := 0 }
    { pool := [], current := 1, nextConnId := 1, nextTokenId := 1,
      createdTotal := 1, attempts := [0], closedConns := [] }
    [.lockAcq, .mint, .connect, .lockRel] (by decide) (by decide)

/-- C6 (confirmed): with the idle store empty and
`_current_connections` already equal to `maxconn`, `get_connection`
raises the pool-limit exception immediately, performs no I/O beyond
none at all (the trace holds only the lock events, no mint, connect or
probe), and returns the state completely unchanged. -/
theorem acquire_exhausted_fail_fast (env : Env) (maxconn now : Nat)
    (s : PoolState) (hp : s.pool = []) (hc : s.current = (maxconn : Int)) :
    get_connection env maxconn now s = (.error .exhausted, s, [.lockAcq, .lockRel]) :=
  get_connection_exhausted_eq env maxconn now s hp (by rw [hc]; exact lt_irrefl _)

/-- C6 witness: a pool at capacity 1 with nothing idle fails fast with
its state untouched. -/
theorem acquire_exhausted_fail_fast_witness :
    get_connection envAllOk 1 0 atCapacityState =
      (.error .exhausted, atCapacityState, [.lockAcq, .lockRel]) :=
  acquire_exhausted_fail_fast envAllOk 1 0 atCapacityState (by decide) (by decide)

/-- C7 (confirmed): when the popped connection fails its health check
and the replacement creation succeeds, `get_connection` closes the
popped connection, performs exactly one replacement creation (the
attempt trace grows by exactly one mint and the creation total by
exactly 1), returns the fresh replacement stamped `created_at = now`,
and that replacement is healthy whenever the transport reports the
fresh connection open and probing successfully. -/
theorem acquire_unhealthy_replaces_once (env : Env) (maxconn now : Nat)
    (s : PoolState) (c : Conn) (rest : List Conn) (hp : s.pool = c :: rest)
    (hh : is_healthy env c = false)
    (hm : env.mintOk s.nextTokenId = true)
    (hcn : env.connectOk s.nextConnId = true) :
    (get_connection env maxconn now s).1 =
      .ok { id := s.nextConnId, createdAt := now } ∧
    (get_connection env maxconn now s).2.1.createdTotal = s.createdTotal + 1 ∧
    (get_connection env maxconn now s).2.1.attempts =
      s.attempts ++ [s.nextTokenId] ∧
    (get_connection env maxconn now s).2.1.closedConns =
      s.closedConns ++ [c.id] ∧
    (env.connClosed s.nextConnId = false → env.probeOk s.nextConnId = true →
      is_healthy env { id := s.nextConnId, createdAt := now } = true) := by
  rw [get_connection_unhealthy env maxconn now s c rest hp hh]
  unfold create_connection
  simp only [hm, if_pos]
  simp only [hcn, if_pos]
  refine ⟨trivial, trivial, trivial, trivial, fun hcl hpr => ?_⟩
  unfold is_healthy
  simp [hcl, hpr]

/-- C7 witness: a severed idle connection (transport reports id 0
closed) is replaced by exactly one fresh creation which is returned. -/
theorem acquire_unhealthy_replaces_once_witness :
    (get_connection envSickHead 5 7 oneIdleState).1 =
      .ok { id := 1, createdAt := 7 } ∧
    (get_connection envSickHead 5 7 oneIdleState).2.1.createdTotal =
      oneIdleState.createdTotal + 1 ∧
    (get_connection envSickHead 5 7 oneIdleState).2.1.attempts =
      oneIdleState.attempts ++ [1] ∧
    (get_connection envSickHead 5 7 oneIdleState).2.1.closedConns =
      oneIdleState.closedConns ++ [0] ∧
    (envSickHead.connClosed 1 = false → envSickHead.probeOk 1 = true →
      is_healthy envSickHead { id := 1, createdAt := 7 } = true) :=
  acquire_unhealthy_replaces_once envSickHead 5 7 oneIdleState
    { id := 0, createdAt := 0 } [] (by decide) (by decide) (by decide) (by decide)

/-- C10 (confirmed): whenever `get_connection` exits by raising — pool
exhausted, or a mint/connect failure in the empty-store branch or the
unhealthy-replacement branch — `_current_connections` has exactly the
value it had at entry: the counter is neither incremented nor
decremented, even though on the replacement branch the unhealthy
connection has already been popped and closed. -/
theorem acquire_error_preserves_current (env : Env) (maxconn now : Nat)
    (s : PoolState) (e : GetError)
    (h : (get_connection env maxconn now s).1 = .error e) :
    (get_connection env maxconn now s).2.1.current = s.current := by
  cases hp : s.pool with
  | cons c rest =>
    by_cases hh : is_healthy env c
    · rw [get_connection_healthy env maxconn now s c rest hp hh] at h
      exact Except.noConfusion h
    · rw [get_connection_unhealthy env maxconn now s c rest hp
            (Bool.not_eq_true _ ▸ hh)] at h ⊢
      obtain ⟨_, hf2, _⟩ := create_connection_frame env now
        { s with pool := rest, closedConns := s.closedConns ++ [c.id] }
      rcases hc : create_connection env now
          { s with pool := rest, closedConns := s.closedConns ++ [c.id] }
        with ⟨r, s2, evs⟩
      rw [hc] at h hf2
      cases r with
      | ok c2 => exact Except.noConfusion h
      | error e2 => exact hf2
  | nil =>
    by_cases hlt : s.current < (maxconn : Int)
    · rw [get_connection_empty_grow env maxconn now s hp hlt] at h ⊢
      obtain ⟨_, hf2, _⟩ := create_connection_frame env now s
      rcases hc : create_connection env now s with ⟨r, s2, evs⟩
      rw [hc] at h hf2
      cases r with
      | ok c2 => exact Except.noConfusion h
      | error e2 => exact hf2
    · rw [get_connection_exhausted_eq env maxconn now s hp hlt]

/-- C10 witness: the counter of a pool at capacity is untouched by the
failing acquire. -/
theorem acquire_error_preserves_current_witness :
    (get_connection envAllOk 1 0 atCapacityState).2.1.current =
      atCapacityState.current :=
  acquire_error_preserves_current envAllOk 1 0 atCapacityState .exhausted (by decide)

/-- Appending the current fresh token id to the attempt trace keeps it
strictly increasing and bounded by the next token id. -/
theorem tokens_fresh_push (s : PoolState) (h : TokensFresh s) :
    (s.attempts ++ [s.nextTokenId]).Pairwise (· < ·) ∧
    ∀ x ∈ s.attempts ++ [s.nextTokenId], x < s.nextTokenId + 1 := by
  obtain ⟨h1, h2⟩ := h
  constructor
  · refine List.pairwise_append.mpr ⟨h1, List.pairwise_singleton _ _, ?_⟩
    intro a ha b hb
    rw [List.mem_singleton] at hb
    subst hb
    exact h2 a ha
  · intro x hx
    rcases List.mem_append.mp hx with hx | hx
    · exact Nat.lt_succ_of_lt (h2 x hx)
    · rw [List.mem_singleton] at hx
      subst hx
      exact Nat.lt_succ_self _

/-- `_create_connection` preserves token freshness: it uses the
current fresh token id for its one attempt and bumps the mint counter.
-/
theorem create_tokens_fresh (env : Env) (now : Nat) (s : PoolState)
    (h : TokensFresh s) : TokensFresh (create_connection env now s).2.1 := by
  have hp := tokens_fresh_push s h
  obtain ⟨h1, h2⟩ := h
  unfold create_connection
  by_cases hm : env.mintOk s.nextTokenId = true
  · by_cases hc : env.connectOk s.nextConnId = true
    · simp only [hm, hc, if_pos]
      exact hp
    · simp only [hm, if_pos, hc, if_neg, Bool.not_eq_true]
      exact hp
  · simp only [hm, if_neg, Bool.not_eq_true]
    exact ⟨h1, fun x hx => Nat.lt_succ_of_lt (h2 x hx)⟩

/-- `get_connection` preserves token freshness in every branch. -/
theorem get_tokens_fresh (env : Env) (maxconn now : Nat) (s : PoolState)
    (h : TokensFresh s) : TokensFresh (get_connection env maxconn now s).2.1 := by
  cases hp : s.pool with
  | cons c rest =>
    by_cases hh : is_healthy env c
    · rw [get_connection_healthy env maxconn now s c rest hp hh]
      exact h
    · rw [get_connection_unhealthy env maxconn now s c rest hp
            (Bool.not_eq_true _ ▸ hh)]
      have hx : TokensFresh
          { s with pool := rest, closedConns := s.closedConns ++ [c.id] } := h
      have hcr := create_tokens_fresh env now
        { s with pool := rest, closedConns := s.closedConns ++ [c.id] } hx
      rcases hc : create_connection env now
          { s with pool := rest, closedConns := s.closedConns ++ [c.id] }
        with ⟨r, s2, evs⟩
      rw [hc] at hcr
      cases r with
      | ok c2 => exact hcr
      | error e2 => exact hcr
  | nil =>
    by_cases hlt : s.current < (maxconn : Int)
    · rw [get_connection_empty_grow env maxconn now s hp hlt]
      have hcr := create_tokens_fresh env now s h
      rcases hc : create_connection env now s with ⟨r, s2, evs⟩
      rw [hc] at hcr
      cases r with
      | ok c2 => exact hcr
      | error e2 => exact hcr
    · rw [get_connection_exhausted_eq env maxconn now s hp hlt]
      exact h

/-- Every client operation preserves token freshness. -/
theorem step_tokens_fresh (env : Env) (maxconn : Nat) (w : World) (op : Op)
    (h : TokensFresh w.ps) : TokensFresh (step env maxconn w op).ps := by
  cases op with
  | get now =>
    have hg := get_tokens_fresh env maxconn now w.ps h
    have hstep : step env maxconn w (.get now) =
        (match get_connection env maxconn now w.ps with
         | (.ok c, s1, _) => { ps := s1, held := w.held ++ [c] }
         | (.error _, s1, _) => { ps := s1, held := w.held }) := rfl
    rw [hstep]
    rcases hge : get_connection env maxconn now w.ps with ⟨r, s1, evs⟩
    rw [hge] at hg
    cases r with
    | ok c => exact hg
    | error e => exact hg
  | put idx =>
    have hstep : step env maxconn w (.put idx) =
        (match w.held[idx]? with
         | some c => { ps := put_connection maxconn c w.ps,
                       held := w.held.eraseIdx idx }
         | none => w) := rfl
    rw [hstep]
    cases hidx : w.held[idx]? with
    | none => exact h
    | some c =>
      show TokensFresh (put_connection maxconn c w.ps)
      unfold put_connection
      by_cases hr : maxconn = 0 ∨ w.ps.pool.length < maxconn
      · rw [if_pos hr]
        exact h
      · rw [if_neg hr]
        exact h
  | closeAll => exact h

/-- The fresh pool constructor establishes and preserves token
freshness through the pre-warm loop. -/
theorem init_tokens_fresh (env : Env) (maxconn now : Nat) :
    ∀ n, TokensFresh (init_pool env maxconn now n) := by
  intro n
  induction n with
  | zero => exact ⟨List.Pairwise.nil, by intro x hx; cases hx⟩
  | succ n ih =>
    have hstep : init_pool env maxconn now (n + 1) =
        init_step env maxconn now (init_pool env maxconn now n) := rfl
    rw [hstep]
    have hcr := create_tokens_fresh env now (init_pool env maxconn now n) ih
    unfold init_step
    rcases hc : create_connection env now (init_pool env maxconn now n)
      with ⟨r, s1, evs⟩
    rw [hc] at hcr
    cases r with
    | ok c =>
      show TokensFresh
        (if maxconn = 0 ∨ s1.pool.length < maxconn then
          { s1 with pool := s1.pool ++ [c], current := s1.current + 1 }
         else s1)
      by_cases hl : maxconn = 0 ∨ s1.pool.length < maxconn
      · rw [if_pos hl]
        exact hcr
      · rw [if_neg hl]
        exact hcr
    | error e => exact hcr

/-- Token freshness holds after any run. -/
theorem run_tokens_fresh (env : Env) (maxconn minconn : Nat) (ops : List Op) :
    TokensFresh (run env maxconn minconn ops).ps := by
  unfold run
  generalize hw : ({ ps := init_pool env maxconn 0 minconn, held := [] } : World) = w
  have hbase : TokensFresh w.ps := by
    rw [← hw]
    exact init_tokens_fresh env maxconn 0 minconn
  clear hw
  induction ops generalizing w with
  | nil => exact hbase
  | cons op rest ih =>
    simp only [List.foldl_cons]
    exact ih (step env maxconn w op) (step_tokens_fresh env maxconn w op hbase)

/-- C5 (counterexample): in `DSQLPoolManager._init_pool`
(`src/psycopg2_connectionpooling.py`), a single token (id 0) is minted
and handed to `ThreadedConnectionPool` as the fixed password, so the
two pre-warmed physical opens of a `minconn = 2` pool both
authenticate with the same credential — the per-open tokens are not
pairwise distinct. -/
theorem manager_prewarm_reuses_token :
    managerTokens (psycopg2_init true (fun _ => true) 2) = [0, 0] ∧
    ¬ (managerTokens (psycopg2_init true (fun _ => true) 2)).Pairwise (· ≠ ·) := by
  refine ⟨rfl, fun h => ?_⟩
  have := (List.pairwise_cons.mp h).1 0 (List.mem_singleton.mpr rfl)
  exact this rfl

/-- C5 (amended): in `DSQLCustomConnectionPool` every physical
connection attempt — pre-warm included — authenticates with its own
freshly minted token: along any run, the token ids used by the
attempts are pairwise distinct.  (The psycopg2 `DSQLPoolManager`
variant violates this for its pre-warm, see the counterexample.) -/
theorem custom_pool_tokens_never_reused (env : Env) (maxconn minconn : Nat)
    (ops : List Op) :
    ((run env maxconn minconn ops).ps.attempts).Pairwise (· ≠ ·) :=
  ((run_tokens_fresh env maxconn minconn ops).1).imp Nat.ne_of_lt

/-- C8 (counterexample): in `DSQLPoolManager` the pre-warm token mint
(`get_auth_token` in `_init_pool`, outside the `try`) propagates its
failure out of the constructor instead of being logged and swallowed:
construction of a `minconn = 3` pool fails with the auth error. -/
theorem manager_prewarm_failure_propagates :
    psycopg2_init false (fun _ => true) 3 = .error .authError := rfl

/-- C8 (amended): in `DSQLCustomConnectionPool` the pre-warm loop
catches every per-connection failure: even when every token mint
fails, the constructor completes normally, yielding a pool with no
idle connections and a zero counter (smaller than requested) rather
than raising.  In `DSQLPoolManager`, by contrast, a mint or connect
failure during `_init_pool` propagates out of the constructor. -/
theorem custom_prewarm_swallows (env : Env) (maxconn now minconn : Nat)
    (h : ∀ t, env.mintOk t = false) :
    (init_pool env maxconn now minconn).pool = [] ∧
    (init_pool env maxconn now minconn).current = 0 := by
  induction minconn with
  | zero => exact ⟨rfl, rfl⟩
  | succ n ih =>
    obtain ⟨ih1, ih2⟩ := ih
    have hstep : init_pool env maxconn now (n + 1) =
        init_step env maxconn now (init_pool env maxconn now n) := rfl
    rw [hstep]
    unfold init_step create_connection
    simp only [h, Bool.false_eq_true, if_false]
    exact ⟨ih1, ih2⟩

/-- C8 witness: a three-connection pre-warm under an always-failing
identity service still constructs, with an empty idle store. -/
theorem custom_prewarm_swallows_witness :
    (init_pool envNoMint 5 0 3).pool = [] ∧
    (init_pool envNoMint 5 0 3).current = 0 :=
  custom_prewarm_swallows envNoMint 5 0 3 (fun _ => rfl)

/-- The I/O events a `_create_connection` call performs: one mint, and
one handshake when the mint succeeded. -/
theorem create_connection_events (env : Env) (now : Nat) (s : PoolState) :
    (create_connection env now s).2.2 = [.mint] ∨
    (create_connection env now s).2.2 = [.mint, .connect] := by
  unfold create_connection
  by_cases hm : env.mintOk s.nextTokenId = true
  · by_cases hc2 : env.connectOk s.nextConnId = true
    · right
      simp [hm, hc2]
    · right
      simp [hm, hc2]
  · left
    simp [hm]

/-- C9 (counterexample): the spec demands that the probe and the
connection establishment run outside the critical section, but already
on a fresh empty pool the mint and handshake events of
`get_connection` happen between lock acquisition and lock release. -/
theorem acquire_io_outside_lock_cex :
    ioOutsideLock (get_connection envAllOk 1 0 initState).2.2 = false := by
  decide

/-- C9 (amended): `get_connection` holds `_pool_lock` for its entire
body: in every branch, every network I/O event of the acquire — the
`SELECT 1` probe, the token mint and the handshake — occurs strictly
inside the critical section. -/
theorem acquire_io_inside_lock (env : Env) (maxconn now : Nat) (s : PoolState) :
    ioInsideLock (get_connection env maxconn now s).2.2 = true := by
  cases hp : s.pool with
  | cons c rest =>
    by_cases hh : is_healthy env c
    · rw [get_connection_healthy env maxconn now s c rest hp hh]
      rfl
    · rw [get_connection_unhealthy env maxconn now s c rest hp
            (Bool.not_eq_true _ ▸ hh)]
      have hev := create_connection_events env now
        { s with pool := rest, closedConns := s.closedConns ++ [c.id] }
      rcases hc : create_connection env now
          { s with pool := rest, closedConns := s.closedConns ++ [c.id] }
        with ⟨r, s2, evs⟩
      rw [hc] at hev
      dsimp only at hev
      cases r with
      | ok c2 =>
        rcases hev with hev | hev <;> (subst hev; rfl)
      | error e2 =>
        rcases hev with hev | hev <;> (subst hev; rfl)
  | nil =>
    by_cases hlt : s.current < (maxconn : Int)
    · rw [get_connection_empty_grow env maxconn now s hp hlt]
      have hev := create_connection_events env now s
      rcases hc : create_connection env now s with ⟨r, s2, evs⟩
      rw [hc] at hev
      dsimp only at hev
      cases r with
      | ok c2 =>
        rcases hev with hev | hev <;> (subst hev; rfl)
      | error e2 =>
        rcases hev with hev | hev <;> (subst hev; rfl)
    · rw [get_connection_exhausted_eq env maxconn now s hp hlt]
      rfl
